import Mathlib

/-!
Verification development for `badge.js`, a batch image conversion and
compression pipeline.

The program enumerates `before/**/*.{png,jpg,jpeg}`, plans derivative
formats from the (lower-cased) source extension, re-encodes each source
with the `sharp` library, compresses every encoded buffer through the
TinyPNG HTTP API (`POST /shrink` followed by a `GET` of the returned
`Location`), and writes the compressed bytes to `after/{base}{ext}`.
Files are processed strictly sequentially; a per-file `try/catch`
records failures without aborting the loop, and the run ends with a
summary line.

External collaborators (the filesystem scan, the `sharp` encoder and the
HTTP responses of the TinyPNG service) are modelled as an explicit
environment `Env`; byte buffers are lists of byte values.  The working
directory prefix (`process.cwd()`) is elided, so `BEFORE_DIR`/`AFTER_DIR`
are the relative names `before`/`after`.  The commented-out
`clearBeforeDir` step of the source is disabled by default and is not
modelled.  Console output is modelled as a list of structured `LogLine`
values rather than raw strings.
-/

namespace MinifyImage

/-- Byte buffers (Node `Buffer`) as lists of byte values. -/
abbrev Bytes := List Nat

/-- ASCII case folding of one character, as performed by JS
`String.prototype.toLowerCase` on the ASCII extensions this program
inspects. -/
def jsToLower (c : Char) : Char :=
  if 'A' ≤ c ∧ c ≤ 'Z' then Char.ofNat (c.toNat + 32) else c

/-- JS `s.toLowerCase()` (ASCII fragment). -/
def toLowerStr (s : String) : String := ⟨s.data.map jsToLower⟩

/-- Node `path.basename p` on `/`-separated paths: drop trailing
separators, then keep the characters after the last separator. -/
def jsBasenameChars (l : List Char) : List Char :=
  ((l.reverse.dropWhile (fun c => c == '/')).takeWhile (fun c => c != '/')).reverse

/-- Node `path.extname p`: the suffix of the basename starting at its
last dot, except that a dot in the very first position (hidden files)
does not begin an extension. -/
def extnameChars (b : List Char) : List Char :=
  match b with
  | [] => []
  | _ :: rest =>
    if rest.contains '.' then
      '.' :: (rest.reverse.takeWhile (fun c => c != '.')).reverse
    else []

/-- Node `path.extname` on a path string. -/
def extname (p : String) : String := ⟨extnameChars (jsBasenameChars p.data)⟩

/-- Node `path.basename(p, suffix)` suffix stripping: the suffix is
removed when it is a proper trailing part of the basename. -/
def stripSuffix (b suffix : List Char) : List Char :=
  if !suffix.isEmpty && !(b == suffix) && suffix.isSuffixOf b then
    b.take (b.length - suffix.length)
  else b

/-- `baseNameNoExt(filePath)` from the source:
`path.basename(filePath, path.extname(filePath))`. -/
def baseNameNoExt (p : String) : String :=
  let b := jsBasenameChars p.data
  ⟨stripSuffix b (extnameChars b)⟩

/-- `withExt(outDir, base, ext)` from the source:
`path.join(outDir, base + ext)` for an already-normalized `outDir`. -/
def withExt (outDir base ext : String) : String := outDir ++ "/" ++ base ++ ext

/-- Output directory (`path.join(ROOT, "after")`, with `ROOT` elided). -/
def AFTER_DIR : String := "after"

/-- Input directory (`path.join(ROOT, "before")`, with `ROOT` elided). -/
def BEFORE_DIR : String := "before"

/-- `isJpeg(ext)` from the source. -/
def isJpeg (ext : String) : Bool := ext == ".jpg" || ext == ".jpeg"

/-- `isPng(ext)` from the source. -/
def isPng (ext : String) : Bool := ext == ".png"

/-- Encoder parameters of one planned derivative, as passed to `sharp`:
`.jpeg({quality, mozjpeg})` or `.webp({quality})`. -/
inductive EncodePlan where
  | jpeg (quality : Nat) (mozjpeg : Bool)
  | webp (quality : Nat)
deriving DecidableEq, Repr

/-- The derivative plan of `convertAndCompressOne` as a function of the
(already lower-cased) extension: png sources get a jpg (quality 90,
mozjpeg) and a webp (quality 85) derivative, jpeg sources get a webp
(quality 85) derivative, anything else gets none. -/
def planDerivatives (ext : String) : List (String × EncodePlan) :=
  if isPng ext then
    [(".jpg", EncodePlan.jpeg 90 true), (".webp", EncodePlan.webp 85)]
  else if isJpeg ext then
    [(".webp", EncodePlan.webp 85)]
  else []

/-- The plan for a source path: `convertAndCompressOne` lower-cases
`path.extname(srcPath)` before branching. -/
def planFor (srcPath : String) : List (String × EncodePlan) :=
  planDerivatives (toLowerStr (extname srcPath))

/-- An HTTP response as observed through axios with
`validateStatus: () => true`: a status code, the optional `Location`
header, and the body bytes. -/
structure HttpResponse where
  status : Nat
  location : Option String
  body : Bytes

/-- The distinct rejection sites of the pipeline: the four `throw`
statements of `tinifyCompressBuffer` plus a rejection of the `sharp`
encoder. -/
inductive JsError where
  | noApiKey
  | shrinkFailed (status : Nat)
  | noLocation
  | downloadFailed (status : Nat)
  | encodeFailed (msg : String)
deriving DecidableEq, Repr

/-- The external world of one run: the credential from the environment,
the TinyPNG responses (a function of the uploaded body, respectively of
the fetched URL), the `sharp` encoder outcomes, the three glob results,
and whether the setup phase (`ensureDirs` / the glob calls) rejects. -/
structure Env where
  apiKey : Option String
  shrinkRes : Bytes → HttpResponse
  getRes : String → HttpResponse
  sharpJpeg : String → Nat → Bool → Except String Bytes
  sharpWebp : String → Nat → Except String Bytes
  globPng : List String
  globJpg : List String
  globJpeg : List String
  setupFails : Bool

/-- JS truthiness of the `API_KEY` value: `!API_KEY` is true when the
variable is unset or the empty string. -/
def truthyKey : Option String → Bool
  | none => false
  | some s => !(s == "")

/-- `status < 200 || status >= 300` from the source. -/
def non2xx (status : Nat) : Bool := decide (status < 200 ∨ 300 ≤ status)

/-- `tinifyCompressBuffer(inputBuffer)`: throw when the credential is
falsy; `POST /shrink`, throw on a non-2xx status; throw when the
`Location` header is absent; `GET` that location, throw on a non-2xx
status; otherwise return the downloaded body. -/
def tinifyCompressBuffer (env : Env) (inputBuffer : Bytes) : Except JsError Bytes :=
  if truthyKey env.apiKey = false then
    .error .noApiKey
  else
    let shrinkRes := env.shrinkRes inputBuffer
    if non2xx shrinkRes.status then
      .error (.shrinkFailed shrinkRes.status)
    else
      match shrinkRes.location with
      | none => .error .noLocation
      | some outputUrl =>
        let outRes := env.getRes outputUrl
        if non2xx outRes.status then
          .error (.downloadFailed outRes.status)
        else
          .ok outRes.body

/-- One `fs.writeFile` performed by the program. -/
structure WriteEvent where
  path : String
  bytes : Bytes
deriving DecidableEq, Repr

/-- `writeCompressedFile(outPath, buffer)`: compress the buffer through
TinyPNG and write the compressed result to `outPath`. -/
def writeCompressedFile (env : Env) (outPath : String) (buffer : Bytes) :
    Except JsError WriteEvent :=
  match tinifyCompressBuffer env buffer with
  | .error e => .error e
  | .ok compressed => .ok ⟨outPath, compressed⟩

/-- The `sharp` invocation for one planned derivative. -/
def encodeFor (env : Env) (srcPath : String) : EncodePlan → Except String Bytes
  | .jpeg q m => env.sharpJpeg srcPath q m
  | .webp q => env.sharpWebp srcPath q

/-- One derivative task of `convertAndCompressOne`: encode with `sharp`,
then `writeCompressedFile`, then resolve with the output path. -/
def runDerivativeTask (env : Env) (srcPath outPath : String) (plan : EncodePlan) :
    Except JsError (String × WriteEvent) :=
  match encodeFor env srcPath plan with
  | .error m => .error (.encodeFailed m)
  | .ok buf =>
    match writeCompressedFile env outPath buf with
    | .error e => .error e
    | .ok w => .ok (outPath, w)

/-- The tasks pushed by `convertAndCompressOne`, each paired with its
planned output path. -/
def plannedTasks (env : Env) (srcPath : String) :
    List (String × Except JsError (String × WriteEvent)) :=
  (planFor srcPath).map (fun d =>
    let outPath := withExt AFTER_DIR (baseNameNoExt srcPath) d.1
    (outPath, runDerivativeTask env srcPath outPath d.2))

/-- The writes performed by the individually successful tasks of one
file.  A rejecting sibling does not undo them: `Promise.all` neither
cancels nor rolls back tasks that fulfilled. -/
def taskWrites (ts : List (String × Except JsError (String × WriteEvent))) :
    List WriteEvent :=
  ts.filterMap (fun t => match t.2 with | .ok pw => some pw.2 | .error _ => none)

/-- The rejection reasons among one file's tasks. -/
def taskErrors (ts : List (String × Except JsError (String × WriteEvent))) :
    List JsError :=
  ts.filterMap (fun t => match t.2 with | .ok _ => none | .error e => some e)

/-- The output paths the fulfilled tasks resolved with. -/
def taskOutputs (ts : List (String × Except JsError (String × WriteEvent))) :
    List String :=
  ts.filterMap (fun t => match t.2 with | .ok pw => some pw.1 | .error _ => none)

/-- The `{srcPath, outputs, skipped}` record resolved by
`convertAndCompressOne`. -/
structure FileResult where
  srcPath : String
  outputs : List String
  skipped : Bool
deriving DecidableEq, Repr

/-- `convertAndCompressOne(srcPath)`: unplanned extensions resolve as
skipped; otherwise all derivative tasks run and `Promise.all` either
resolves with the output paths (all fulfilled) or rejects (at least one
task rejected — the settled reason is one of `taskErrors`, depending on
timing, so the rejection carries the whole list here).  The second
component collects the writes of the fulfilled tasks, which happen
regardless of how the aggregate settles. -/
def convertAndCompressOne (env : Env) (srcPath : String) :
    Except (List JsError) FileResult × List WriteEvent :=
  if planFor srcPath = [] then
    (.ok ⟨srcPath, [], true⟩, [])
  else
    let ts := plannedTasks env srcPath
    if taskErrors ts = [] then
      (.ok ⟨srcPath, taskOutputs ts, false⟩, taskWrites ts)
    else
      (.error (taskErrors ts), taskWrites ts)

/-- Structured console output: the no-target notice, the two header
lines, the per-file `OK`/`SKIP` lines (stdout) and `ERROR` lines
(stderr), the fatal trace of `main().catch`, and the final summary
line `okCount/total`. -/
inductive LogLine where
  | noTargets
  | inputCount (n : Nat)
  | outputDir (d : String)
  | okLine (src : String) (outs : List String)
  | skipLine (src : String)
  | errLine (src : String) (errs : List JsError)
  | fatal
  | summary (ok : Nat) (total : Nat)
deriving DecidableEq, Repr

/-- The one log line the loop body emits for a source file. -/
def fileLog (env : Env) (f : String) : LogLine :=
  match (convertAndCompressOne env f).1 with
  | .ok r => if r.skipped then .skipLine f else .okLine f r.outputs
  | .error errs => .errLine f errs

/-- Accumulated state of the orchestrator loop. -/
structure LoopAcc where
  results : List FileResult
  log : List LogLine
  writes : List WriteEvent
deriving Repr

/-- The `for (const f of files)` loop of `main`: each iteration awaits
`convertAndCompressOne(f)` inside `try/catch`; a resolved value is
pushed onto `results` and logged as OK/SKIP, a rejection is only logged
as ERROR. -/
def processFiles (env : Env) : List String → LoopAcc
  | [] => ⟨[], [], []⟩
  | f :: rest =>
    let stepped := convertAndCompressOne env f
    let acc := processFiles env rest
    match stepped.1 with
    | .ok r =>
      ⟨r :: acc.results,
       (if r.skipped then LogLine.skipLine f else LogLine.okLine f r.outputs) :: acc.log,
       stepped.2 ++ acc.writes⟩
    | .error errs =>
      ⟨acc.results, LogLine.errLine f errs :: acc.log, stepped.2 ++ acc.writes⟩

/-- `results.filter((r) => !r.skipped && r.outputs.length).length`
(a JS number is truthy when nonzero). -/
def okCount (results : List FileResult) : Nat :=
  (results.filter (fun r => !r.skipped && !r.outputs.isEmpty)).length

/-- One step of `new Set(...)` insertion order: keep the first
occurrence. -/
def jsSetInsert (acc : List String) (x : String) : List String :=
  if x ∈ acc then acc else acc ++ [x]

/-- `[...new Set(list)]`: deduplication preserving first occurrences. -/
def jsSetDedup (l : List String) : List String := l.foldl jsSetInsert []

/-- The deduplicated file list of `main`:
`[...new Set(filesNested.flat())]` over the three glob results in
pattern order. -/
def mainFiles (env : Env) : List String :=
  jsSetDedup (env.globPng ++ env.globJpg ++ env.globJpeg)

/-- Observable outcome of one process run: the exit code, the combined
structured console output, and the file writes in order. -/
structure MainOutput where
  exitCode : Nat
  log : List LogLine
  writes : List WriteEvent
deriving Repr

/-- `main()` together with the `main().catch(... process.exit(1))`
harness: a setup-phase rejection exits with code 1; an empty file list
prints the notice and returns; otherwise the header lines, the
sequential loop, and the summary line, with the implicit exit code 0 of
a normally ending Node process. -/
def main (env : Env) : MainOutput :=
  if env.setupFails then
    ⟨1, [LogLine.fatal], []⟩
  else
    let files := mainFiles env
    if files.isEmpty then
      ⟨0, [LogLine.noTargets], []⟩
    else
      let acc := processFiles env files
      ⟨0,
       LogLine.inputCount files.length :: LogLine.outputDir AFTER_DIR ::
         (acc.log ++ [LogLine.summary (okCount acc.results) files.length]),
       acc.writes⟩

/-- The `(ok, total)` pair of the final summary line, when the run ends
with one. -/
def summaryData (m : MainOutput) : Option (Nat × Nat) :=
  match m.log.getLast? with
  | some (LogLine.summary a b) => some (a, b)
  | _ => none

/-- Number of per-file ERROR lines in a log. -/
def errLineCount (log : List LogLine) : Nat :=
  (log.filter (fun l => match l with | .errLine _ _ => true | _ => false)).length

/-- The loop records this file as failed (its awaited promise
rejected). -/
def fileFailed (env : Env) (f : String) : Bool :=
  match (convertAndCompressOne env f).1 with
  | .error _ => true
  | .ok _ => false

/-- The loop records this file as fully succeeded with at least one
output (the files `okCount` counts). -/
def fileSucceeded (env : Env) (f : String) : Bool :=
  match (convertAndCompressOne env f).1 with
  | .ok r => !r.skipped && !r.outputs.isEmpty
  | .error _ => false

/-- Replaying `fs.writeFile` events over a filesystem: a later write to
the same path overwrites an earlier one. -/
def applyWrites (fs : String → Option Bytes) : List WriteEvent → (String → Option Bytes)
  | [] => fs
  | w :: ws => applyWrites (fun p => if p = w.path then some w.bytes else fs p) ws

/-- The output directory contents after a run, starting from an empty
directory. -/
def finalFs (env : Env) : String → Option Bytes :=
  applyWrites (fun _ => none) (main env).writes

/-- `Except.isOk` spelled out. -/
def exceptIsOk : Except ε α → Bool
  | .ok _ => true
  | .error _ => false

/-! ### Timed model of the event loop

The only suspension points are the awaited network/encoder/filesystem
calls, so each derivative task settles some environment-determined time
after it starts.  `Promise.all` fulfills once the last task fulfills,
and rejects as soon as the first rejecting task settles — it does not
wait for, or cancel, siblings still in flight.  The loop in `main`
starts the next file exactly when the previous file's `Promise.all`
settles. -/

/-- Wall-clock durations chosen by the environment: how long the task of
a given source file producing a given output path runs before it
settles. -/
structure Sched where
  taskDur : String → String → Nat

/-- The tasks of one file started at time `t0`: output path, settlement
time, and whether the task fulfilled (as decided by the untimed
model). -/
def timedTasks (env : Env) (sched : Sched) (srcPath : String) (t0 : Nat) :
    List (String × Nat × Bool) :=
  (plannedTasks env srcPath).map
    (fun t => (t.1, t0 + sched.taskDur srcPath t.1, exceptIsOk t.2))

/-- The time at which `Promise.all` over these tasks settles: with no
rejection, when the last task fulfills (or immediately when there are no
tasks); otherwise when the earliest rejecting task settles. -/
def settleTime (t0 : Nat) (tasks : List (String × Nat × Bool)) : Nat :=
  match tasks.filter (fun x => !x.2.2) with
  | [] => tasks.foldl (fun m x => Nat.max m x.2.1) t0
  | r :: rs => rs.foldl (fun m x => Nat.min m x.2.1) r.2.1

/-- The time at which the file following the given prefix of the file
list begins processing, when the whole run starts at `t0`: each file in
the prefix hands over at its `Promise.all` settlement. -/
def startTimeAfter (env : Env) (sched : Sched) (t0 : Nat) : List String → Nat
  | [] => t0
  | f :: rest =>
    startTimeAfter env sched (settleTime t0 (timedTasks env sched f t0)) rest

/-! ### Concrete environments used by witnesses and counterexamples -/

/-- A run in which every collaborator succeeds: one png source, constant
encoder outputs, a 2xx shrink response with a location, a 2xx download. -/
def okEnv : Env where
  apiKey := some "key"
  shrinkRes := fun _ => ⟨201, some "https://api.tinify.com/output/x", []⟩
  getRes := fun _ => ⟨200, none, [7, 7]⟩
  sharpJpeg := fun _ _ _ => .ok [1]
  sharpWebp := fun _ _ => .ok [2]
  globPng := ["before/a.png"]
  globJpg := []
  globJpeg := []
  setupFails := false

/-- A run with no credential configured: one png source, encoders that
always succeed. -/
def noKeyEnv : Env where
  apiKey := none
  shrinkRes := fun _ => ⟨201, some "https://api.tinify.com/output/x", []⟩
  getRes := fun _ => ⟨200, none, [7, 7]⟩
  sharpJpeg := fun _ _ _ => .ok [1]
  sharpWebp := fun _ _ => .ok [2]
  globPng := ["before/a.png"]
  globJpg := []
  globJpeg := []
  setupFails := false

/-- Two png sources; the compressor succeeds for `a.png`'s buffers and
returns 500 for `b.png`'s buffers. -/
def envFail2 : Env where
  apiKey := some "key"
  shrinkRes := fun b =>
    if b == [4] || b == [5] then ⟨500, none, []⟩
    else ⟨201, some "u", []⟩
  getRes := fun _ => ⟨200, none, [9]⟩
  sharpJpeg := fun src _ _ => .ok (if src == "before/a.png" then [1] else [4])
  sharpWebp := fun src _ => .ok (if src == "before/a.png" then [2] else [5])
  globPng := ["before/a.png", "before/b.png"]
  globJpg := []
  globJpeg := []
  setupFails := false

/-- One png source plus one enumerated non-image path (enumeration is an
unconstrained external collaborator here); everything configured
succeeds. -/
def envSkip2 : Env where
  apiKey := some "key"
  shrinkRes := fun _ => ⟨201, some "u", []⟩
  getRes := fun _ => ⟨200, none, [9]⟩
  sharpJpeg := fun _ _ _ => .ok [1]
  sharpWebp := fun _ _ => .ok [2]
  globPng := ["before/a.png", "before/notes.txt"]
  globJpg := []
  globJpeg := []
  setupFails := false

/-- `a.png` and `a.jpg` both enumerated: both plan a `.webp` derivative
with the same base name.  Encoder outputs and download bodies are keyed
so the two sources produce distinguishable bytes. -/
def collideEnv : Env where
  apiKey := some "key"
  shrinkRes := fun b =>
    if b == [1] then ⟨200, some "u1", []⟩
    else if b == [2] then ⟨200, some "u2", []⟩
    else ⟨200, some "u3", []⟩
  getRes := fun u =>
    if u == "u1" then ⟨200, none, [11]⟩
    else if u == "u2" then ⟨200, none, [22]⟩
    else ⟨200, none, [33]⟩
  sharpJpeg := fun _ _ _ => .ok [3]
  sharpWebp := fun src _ => .ok (if src == "before/a.png" then [1] else [2])
  globPng := ["before/a.png"]
  globJpg := ["before/a.jpg"]
  globJpeg := []
  setupFails := false

/-- Two png sources where `a.png`'s jpg derivative fails at the encoder
while its webp derivative succeeds. -/
def envReject : Env where
  apiKey := some "key"
  shrinkRes := fun _ => ⟨201, some "u", []⟩
  getRes := fun _ => ⟨200, none, [9]⟩
  sharpJpeg := fun _ _ _ => .error "corrupt"
  sharpWebp := fun _ _ => .ok [2]
  globPng := ["before/a.png", "before/b.png"]
  globJpg := []
  globJpeg := []
  setupFails := false

/-- A schedule under which `a.png`'s jpg task settles quickly while its
webp task runs long. -/
def schedReject : Sched where
  taskDur := fun _ out => if out == "after/a.jpg" then 1 else 5

/-- A uniform schedule for a fully successful run. -/
def schedOk : Sched where
  taskDur := fun _ _ => 3

/-- An environment with empty enumeration results. -/
def emptyEnv : Env where
  apiKey := some "key"
  shrinkRes := fun _ => ⟨201, some "u", []⟩
  getRes := fun _ => ⟨200, none, [9]⟩
  sharpJpeg := fun _ _ _ => .ok [1]
  sharpWebp := fun _ _ => .ok [2]
  globPng := []
  globJpg := []
  globJpeg := []
  setupFails := false

/-! ## Helper lemmas -/

theorem processFiles_log (env : Env) (files : List String) :
    (processFiles env files).log = files.map (fileLog env) := by
  induction files with
  | nil => rfl
  | cons f rest ih =>
    simp only [processFiles, fileLog, List.map_cons]
    cases h : (convertAndCompressOne env f).1 <;> simp [h, ih]

theorem processFiles_writes (env : Env) (files : List String) :
    (processFiles env files).writes =
      (files.map (fun f => (convertAndCompressOne env f).2)).flatten := by
  induction files with
  | nil => rfl
  | cons f rest ih =>
    simp only [processFiles, List.map_cons, List.flatten]
    cases h : (convertAndCompressOne env f).1 <;> simp [h, ih]

theorem main_exitCode (env : Env) :
    (main env).exitCode = (if env.setupFails = true then 1 else 0) := by
  cases h : env.setupFails with
  | true => simp [main, h]
  | false =>
    cases h2 : (mainFiles env).isEmpty <;> simp [main, h, h2]

theorem okCount_processFiles (env : Env) (files : List String) :
    okCount (processFiles env files).results =
      (files.filter (fileSucceeded env)).length := by
  induction files with
  | nil => rfl
  | cons f rest ih =>
    simp only [processFiles]
    cases h : (convertAndCompressOne env f).1 with
    | ok r =>
      have hf : fileSucceeded env f = (!r.skipped && !r.outputs.isEmpty) := by
        simp [fileSucceeded, h]
      simp only [okCount] at ih ⊢
      cases hb : (!r.skipped && !r.outputs.isEmpty) <;>
        simp [List.filter_cons, hf, hb, ih]
    | error errs =>
      have hf : fileSucceeded env f = false := by simp [fileSucceeded, h]
      simp only [okCount] at ih ⊢
      simp [List.filter_cons, hf, ih]

theorem errLineCount_processFiles (env : Env) (files : List String) :
    errLineCount (processFiles env files).log =
      (files.filter (fileFailed env)).length := by
  induction files with
  | nil => rfl
  | cons f rest ih =>
    simp only [processFiles]
    cases h : (convertAndCompressOne env f).1 with
    | ok r =>
      have hf : fileFailed env f = false := by simp [fileFailed, h]
      simp only [errLineCount] at ih ⊢
      cases hs : r.skipped <;> simp [List.filter_cons, hf, hs, ih]
    | error errs =>
      have hf : fileFailed env f = true := by simp [fileFailed, h]
      simp only [errLineCount] at ih ⊢
      simp [List.filter_cons, hf, ih]

theorem main_log_eq (env : Env) (hs : env.setupFails = false)
    (hne : (mainFiles env).isEmpty = false) :
    (main env).log =
      (LogLine.inputCount (mainFiles env).length :: LogLine.outputDir AFTER_DIR ::
        (processFiles env (mainFiles env)).log) ++
        [LogLine.summary (okCount (processFiles env (mainFiles env)).results)
          (mainFiles env).length] := by
  simp [main, hs, hne]

theorem main_writes_eq (env : Env) (hs : env.setupFails = false)
    (hne : (mainFiles env).isEmpty = false) :
    (main env).writes = (processFiles env (mainFiles env)).writes := by
  simp [main, hs, hne]

theorem summaryData_main (env : Env) (hs : env.setupFails = false)
    (hne : (mainFiles env).isEmpty = false) :
    summaryData (main env) =
      some (okCount (processFiles env (mainFiles env)).results,
        (mainFiles env).length) := by
  rw [summaryData, main_log_eq env hs hne, List.getLast?_concat]

theorem jsSetDedup_aux_nodup (l acc : List String) (h : acc.Nodup) :
    (l.foldl jsSetInsert acc).Nodup := by
  induction l generalizing acc with
  | nil => simpa using h
  | cons x xs ih =>
    simp only [List.foldl_cons]
    apply ih
    by_cases hx : x ∈ acc
    · simpa [jsSetInsert, hx] using h
    · simp only [jsSetInsert]
      rw [if_neg hx, List.nodup_append]
      refine ⟨h, List.nodup_singleton x, ?_⟩
      intro a ha hb
      simp only [List.mem_singleton] at hb
      subst hb
      exact hx ha

theorem jsSetDedup_aux_mem (l : List String) (acc : List String) (y : String) :
    y ∈ l.foldl jsSetInsert acc ↔ y ∈ acc ∨ y ∈ l := by
  induction l generalizing acc with
  | nil => simp
  | cons x xs ih =>
    simp only [List.foldl_cons, ih, jsSetInsert]
    by_cases hx : x ∈ acc
    · rw [if_pos hx]
      constructor
      · rintro (h | h)
        · exact Or.inl h
        · exact Or.inr (List.mem_cons_of_mem _ h)
      · rintro (h | h)
        · exact Or.inl h
        · rcases List.mem_cons.mp h with h | h
          · subst h; exact Or.inl hx
          · exact Or.inr h
    · rw [if_neg hx]
      simp only [List.mem_append, List.mem_singleton, List.mem_cons]
      tauto

theorem jsSetDedup_nodup (l : List String) : (jsSetDedup l).Nodup :=
  jsSetDedup_aux_nodup l [] List.nodup_nil

theorem jsSetDedup_mem (l : List String) (y : String) :
    y ∈ jsSetDedup l ↔ y ∈ l := by
  rw [jsSetDedup, jsSetDedup_aux_mem]
  simp

theorem applyWrites_append (fs : String → Option Bytes) (l₁ l₂ : List WriteEvent) :
    applyWrites fs (l₁ ++ l₂) = applyWrites (applyWrites fs l₁) l₂ := by
  induction l₁ generalizing fs with
  | nil => rfl
  | cons w ws ih => simp [applyWrites, ih]

theorem applyWrites_no_touch (fs : String → Option Bytes) (l : List WriteEvent)
    (p : String) (h : ∀ u ∈ l, u.path ≠ p) : applyWrites fs l p = fs p := by
  induction l generalizing fs with
  | nil => rfl
  | cons w ws ih =>
    simp only [applyWrites]
    have hw : w.path ≠ p := h w (List.mem_cons_self _ _)
    have hrec := ih (fun q => if q = w.path then some w.bytes else fs q)
      (fun u hu => h u (List.mem_cons_of_mem _ hu))
    simp only [hrec]
    exact if_neg (fun hp => hw hp.symm)

/-! ## Claims -/

/-- C1: the list of planned derivatives is fully determined by the
source extension compared case-insensitively: a `.png` source yields
exactly `[(.jpg, quality 90, mozjpeg), (.webp, quality 85)]` in that
order, a `.jpg`/`.jpeg` source yields exactly `[(.webp, quality 85)]`,
and any other extension yields the empty list. -/
theorem C1_plan_determined_by_extension (p : String) :
    (toLowerStr (extname p) = ".png" →
      planFor p = [(".jpg", EncodePlan.jpeg 90 true), (".webp", EncodePlan.webp 85)])
  ∧ ((toLowerStr (extname p) = ".jpg" ∨ toLowerStr (extname p) = ".jpeg") →
      planFor p = [(".webp", EncodePlan.webp 85)])
  ∧ (toLowerStr (extname p) ≠ ".png" → toLowerStr (extname p) ≠ ".jpg" →
      toLowerStr (extname p) ≠ ".jpeg" → planFor p = []) := by
  refine ⟨?_, ?_, ?_⟩
  · intro h
    simp [planFor, planDerivatives, isPng, h]
  · rintro (h | h) <;> simp [planFor, planDerivatives, isPng, isJpeg, h]
  · intro h1 h2 h3
    simp [planFor, planDerivatives, isPng, isJpeg, h1, h2, h3]

/-- Witness for C1 at the upper-case extension `.PNG`. -/
theorem C1_plan_witness :
    toLowerStr (extname "before/photo.PNG") = ".png" ∧
      planFor "before/photo.PNG" =
        [(".jpg", EncodePlan.jpeg 90 true), (".webp", EncodePlan.webp 85)] :=
  ⟨by decide, (C1_plan_determined_by_extension "before/photo.PNG").1 (by decide)⟩

/-- C2: `tinifyCompressBuffer` fails with the configuration error
exactly when no credential is configured (unset or empty); with a
credential it fails with the upload error when `POST /shrink` returns a
non-2xx status, with the missing-location error when the 2xx shrink
response has no `Location` header, with the download error when the
`GET` of that location returns non-2xx, and otherwise returns the
downloaded body.  These are the only failure cases — in particular no
encoder error ever originates here. -/
theorem C2_compress_failure_cases (env : Env) (buf : Bytes) :
    ((env.apiKey = none ∨ env.apiKey = some "") ↔ truthyKey env.apiKey = false)
  ∧ (truthyKey env.apiKey = false →
      tinifyCompressBuffer env buf = .error .noApiKey)
  ∧ (truthyKey env.apiKey = true → non2xx (env.shrinkRes buf).status = true →
      tinifyCompressBuffer env buf = .error (.shrinkFailed (env.shrinkRes buf).status))
  ∧ (truthyKey env.apiKey = true → non2xx (env.shrinkRes buf).status = false →
      (env.shrinkRes buf).location = none →
      tinifyCompressBuffer env buf = .error .noLocation)
  ∧ (∀ url, truthyKey env.apiKey = true → non2xx (env.shrinkRes buf).status = false →
      (env.shrinkRes buf).location = some url →
      non2xx (env.getRes url).status = true →
      tinifyCompressBuffer env buf = .error (.downloadFailed (env.getRes url).status))
  ∧ (∀ url, truthyKey env.apiKey = true → non2xx (env.shrinkRes buf).status = false →
      (env.shrinkRes buf).location = some url →
      non2xx (env.getRes url).status = false →
      tinifyCompressBuffer env buf = .ok (env.getRes url).body)
  ∧ (∀ m, tinifyCompressBuffer env buf ≠ .error (.encodeFailed m)) := by
  refine ⟨?_, ?_, ?_, ?_, ?_, ?_, ?_⟩
  · cases h : env.apiKey with
    | none => simp [truthyKey]
    | some s =>
      simp only [truthyKey, Bool.not_eq_false']
      constructor
      · rintro (h1 | h1)
        · exact absurd h1 (by simp)
        · injection h1 with h1; simp [h1]
      · intro h1
        right
        congr 1
        exact beq_iff_eq.mp h1
  · intro h
    simp [tinifyCompressBuffer, h]
  · intro hk hs
    simp [tinifyCompressBuffer, hk, hs]
  · intro hk hs hl
    simp [tinifyCompressBuffer, hk, hs, hl]
  · intro url hk hs hl hd
    simp [tinifyCompressBuffer, hk, hs, hl, hd]
  · intro url hk hs hl hd
    simp [tinifyCompressBuffer, hk, hs, hl, hd]
  · intro m
    by_cases h1 : truthyKey env.apiKey = false
    · simp [tinifyCompressBuffer, h1]
    · by_cases h2 : non2xx (env.shrinkRes buf).status
      · simp [tinifyCompressBuffer, h1, h2]
      · cases h3 : (env.shrinkRes buf).location with
        | none => simp [tinifyCompressBuffer, h1, h2, h3]
        | some url =>
          by_cases h4 : non2xx (env.getRes url).status <;>
            simp [tinifyCompressBuffer, h1, h2, h3, h4]

/-- Witness for C2: the missing-credential case at a concrete
environment and buffer. -/
theorem C2_compress_witness :
    truthyKey noKeyEnv.apiKey = false ∧
      tinifyCompressBuffer noKeyEnv [1] = .error .noApiKey :=
  ⟨by decide, (C2_compress_failure_cases noKeyEnv [1]).2.1 (by decide)⟩

/-- C3: the loop produces exactly one recorded line per enumerated file,
in order, whether that file resolved or rejected — a rejection is caught
at the per-file boundary and never aborts the remaining files — and the
process exit code is 0 whenever setup succeeded (even if every file
failed), 1 exactly when an error escapes the whole batch during the
setup phase. -/
theorem C3_per_file_error_isolation (env : Env) (files : List String) :
    (processFiles env files).log = files.map (fileLog env)
  ∧ (main env).exitCode = (if env.setupFails = true then 1 else 0) :=
  ⟨processFiles_log env files, main_exitCode env⟩

theorem fileFailed_not_succeeded (env : Env) (f : String)
    (h : fileFailed env f = true) : fileSucceeded env f = false := by
  unfold fileFailed at h
  unfold fileSucceeded
  cases h2 : (convertAndCompressOne env f).1 <;> simp_all

theorem fileSucceeded_not_failed (env : Env) (f : String)
    (h : fileSucceeded env f = true) : fileFailed env f = false := by
  unfold fileSucceeded at h
  unfold fileFailed
  cases h2 : (convertAndCompressOne env f).1 <;> simp_all

theorem filter_length_all_but_one (l : List String) (f₀ : String) (p : String → Bool)
    (hnd : l.Nodup) (hmem : f₀ ∈ l) (hf : p f₀ = false)
    (hother : ∀ f ∈ l, f ≠ f₀ → p f = true) :
    (l.filter p).length + 1 = l.length := by
  induction l with
  | nil => cases hmem
  | cons x xs ih =>
    rcases List.mem_cons.mp hmem with hx | hx
    · subst hx
      have hxs : ∀ f ∈ xs, p f = true := by
        intro f hfmem
        have hne : f ≠ f₀ := by
          rintro rfl
          exact (List.nodup_cons.mp hnd).1 hfmem
        exact hother f (List.mem_cons_of_mem _ hfmem) hne
      have heq : xs.filter p = xs := List.filter_eq_self.mpr hxs
      simp [List.filter_cons, hf, heq]
    · have hxne : x ≠ f₀ := by
        rintro rfl
        exact (List.nodup_cons.mp hnd).1 hx
      have hpx : p x = true := hother x (List.mem_cons_self _ _) hxne
      have hrec := ih (List.nodup_cons.mp hnd).2 hx
        (fun f hfm hne => hother f (List.mem_cons_of_mem _ hfm) hne)
      simp only [List.filter_cons, hpx, if_pos, List.length_cons]
      omega

theorem filter_length_single (l : List String) (f₀ : String) (p : String → Bool)
    (hnd : l.Nodup) (hmem : f₀ ∈ l) (hf : p f₀ = true)
    (hother : ∀ f ∈ l, f ≠ f₀ → p f = false) :
    (l.filter p).length = 1 := by
  induction l with
  | nil => cases hmem
  | cons x xs ih =>
    rcases List.mem_cons.mp hmem with hx | hx
    · subst hx
      have hxs : xs.filter p = [] := by
        apply List.filter_eq_nil_iff.mpr
        intro f hfmem
        have hne : f ≠ f₀ := by
          rintro rfl
          exact (List.nodup_cons.mp hnd).1 hfmem
        simp [hother f (List.mem_cons_of_mem _ hfmem) hne]
      simp [List.filter_cons, hf, hxs]
    · have hxne : x ≠ f₀ := by
        rintro rfl
        exact (List.nodup_cons.mp hnd).1 hx
      have hpx : p x = false := hother x (List.mem_cons_self _ _) hxne
      rw [List.filter_cons]
      simp only [hpx]
      exact ih (List.nodup_cons.mp hnd).2 hx
        (fun f hfm hne => hother f (List.mem_cons_of_mem _ hfm) hne)

theorem errLineCount_main (env : Env) (hs : env.setupFails = false)
    (hne : (mainFiles env).isEmpty = false) :
    errLineCount (main env).log =
      ((mainFiles env).filter (fileFailed env)).length := by
  rw [main_log_eq env hs hne, ← errLineCount_processFiles env (mainFiles env)]
  simp [errLineCount, List.filter_append, List.filter_cons]

theorem mainFiles_nonempty_of_mem (env : Env) (f : String) (h : f ∈ mainFiles env) :
    (mainFiles env).isEmpty = false := by
  cases hmf : mainFiles env with
  | nil => rw [hmf] at h; cases h
  | cons a l => simp

/-- C4 is refuted as stated: the emitted summary carries only the
succeeded count and the total, so it does not contain the skipped and
failed counts — two runs with different failed counts produce the
identical summary. -/
theorem C4_counterexample :
    summaryData (main envFail2) = summaryData (main envSkip2)
  ∧ errLineCount (main envFail2).log ≠ errLineCount (main envSkip2).log := by
  constructor
  · decide
  · decide

/-- C4 amended: the final summary contains the count of fully succeeded
files and the total number of enumerated files (not separate skipped and
failed counts).  When processing fails for exactly one enumerated file
`f₀` while every other enumerated file fully succeeds, the summary's
succeeded count equals total − 1, and exactly one per-file ERROR line is
emitted. -/
theorem C4_amended_summary (env : Env) (f₀ : String)
    (hsetup : env.setupFails = false)
    (hmem : f₀ ∈ mainFiles env)
    (hfail : fileFailed env f₀ = true)
    (hok : ∀ f ∈ mainFiles env, f ≠ f₀ → fileSucceeded env f = true) :
    summaryData (main env) =
      some ((mainFiles env).length - 1, (mainFiles env).length)
  ∧ errLineCount (main env).log = 1 := by
  have hne : (mainFiles env).isEmpty = false := mainFiles_nonempty_of_mem env f₀ hmem
  constructor
  · rw [summaryData_main env hsetup hne, okCount_processFiles]
    have hcnt := filter_length_all_but_one (mainFiles env) f₀ (fileSucceeded env)
      (jsSetDedup_nodup _) hmem (fileFailed_not_succeeded env f₀ hfail) hok
    congr 2
    omega
  · rw [errLineCount_main env hsetup hne]
    exact filter_length_single (mainFiles env) f₀ (fileFailed env)
      (jsSetDedup_nodup _) hmem hfail
      (fun f hf hne2 => fileSucceeded_not_failed env f (hok f hf hne2))

/-- Witness for the amended C4 on a two-file batch whose second file
fails compression. -/
theorem C4_amended_witness :
    fileFailed envFail2 "before/b.png" = true
  ∧ summaryData (main envFail2) =
      some ((mainFiles envFail2).length - 1, (mainFiles envFail2).length)
  ∧ errLineCount (main envFail2).log = 1 :=
  ⟨by decide,
   (C4_amended_summary envFail2 "before/b.png" (by decide) (by decide) (by decide)
      (by decide)).1,
   (C4_amended_summary envFail2 "before/b.png" (by decide) (by decide) (by decide)
      (by decide)).2⟩

theorem write_of_task_ok (env : Env) (src outP : String) (pl : EncodePlan)
    (pw : String × WriteEvent)
    (h : runDerivativeTask env src outP pl = .ok pw) :
    pw.1 = outP ∧ pw.2.path = outP ∧
      ∃ buf, tinifyCompressBuffer env buf = .ok pw.2.bytes := by
  cases he : encodeFor env src pl with
  | error m => simp [runDerivativeTask, he] at h
  | ok buf =>
    cases ht : tinifyCompressBuffer env buf with
    | error e => simp [runDerivativeTask, writeCompressedFile, he, ht] at h
    | ok compressed =>
      simp only [runDerivativeTask, writeCompressedFile, he, ht, Except.ok.injEq] at h
      subst h
      exact ⟨rfl, rfl, buf, by rw [ht]⟩

theorem writes_mem_convert (env : Env) (src : String) (w : WriteEvent)
    (hw : w ∈ (convertAndCompressOne env src).2) :
    (∃ buf, tinifyCompressBuffer env buf = .ok w.bytes) ∧
      ∃ d ∈ planFor src, w.path = withExt AFTER_DIR (baseNameNoExt src) d.1 := by
  unfold convertAndCompressOne at hw
  by_cases hp : planFor src = []
  · rw [if_pos hp] at hw
    cases hw
  · rw [if_neg hp] at hw
    have hw2 : w ∈ taskWrites (plannedTasks env src) := by
      by_cases he : taskErrors (plannedTasks env src) = []
      · rw [if_pos he] at hw; exact hw
      · rw [if_neg he] at hw; exact hw
    unfold taskWrites plannedTasks at hw2
    rw [List.filterMap_map] at hw2
    rcases List.mem_filterMap.mp hw2 with ⟨d, hd, hgd⟩
    simp only [Function.comp] at hgd
    cases hr : runDerivativeTask env src (withExt AFTER_DIR (baseNameNoExt src) d.1) d.2 with
    | error e => rw [hr] at hgd; cases hgd
    | ok pw =>
      rw [hr] at hgd
      injection hgd with hgd
      obtain ⟨hq, hpath, buf, hbuf⟩ := write_of_task_ok env src _ d.2 pw hr
      subst hgd
      exact ⟨⟨buf, hbuf⟩, d, hd, hpath⟩

/-- C5: every byte buffer the program writes is the value returned by a
successful remote compression — raw re-encoded bytes are never
persisted. -/
theorem C5_written_bytes_are_compressor_output (env : Env) (w : WriteEvent)
    (hw : w ∈ (main env).writes) :
    ∃ buf, tinifyCompressBuffer env buf = .ok w.bytes := by
  by_cases hs : env.setupFails = true
  · simp [main, hs] at hw
  · by_cases hne : (mainFiles env).isEmpty = true
    · simp [main, hs, hne] at hw
    · rw [main_writes_eq env (by simpa using hs) (by simpa using hne),
        processFiles_writes] at hw
      rcases List.mem_flatten.mp hw with ⟨ws, hws, hw2⟩
      rcases List.mem_map.mp hws with ⟨f, hf, rfl⟩
      exact (writes_mem_convert env f w hw2).1

/-- Witness for C5: a concrete write of a successful run. -/
theorem C5_written_bytes_witness :
    (⟨"after/a.jpg", [7, 7]⟩ : WriteEvent) ∈ (main okEnv).writes
  ∧ ∃ buf, tinifyCompressBuffer okEnv buf = .ok [7, 7] :=
  ⟨by decide,
   C5_written_bytes_are_compressor_output okEnv ⟨"after/a.jpg", [7, 7]⟩ (by decide)⟩

/-- C6: the output path of every derivative write is exactly the join of
the output directory, the source's base name and the target extension;
two sources sharing a base name and targeting the same extension hence
map to the identical output path, and when a later write hits the path
of an earlier one (with no further write to that path afterwards) the
final directory contents hold the later write's bytes — the earlier
output is silently overwritten. -/
theorem C6_output_path_join_and_overwrite (env : Env) (src p₁ p₂ ext : String)
    (w w₁ w₂ : WriteEvent) (ws₁ ws₂ ws₃ : List WriteEvent) :
    (w ∈ (convertAndCompressOne env src).2 →
      ∃ d ∈ planFor src, w.path = withExt AFTER_DIR (baseNameNoExt src) d.1)
  ∧ (baseNameNoExt p₁ = baseNameNoExt p₂ →
      withExt AFTER_DIR (baseNameNoExt p₁) ext = withExt AFTER_DIR (baseNameNoExt p₂) ext)
  ∧ ((main env).writes = ws₁ ++ w₁ :: (ws₂ ++ w₂ :: ws₃) → w₁.path = w₂.path →
      (∀ u ∈ ws₃, u.path ≠ w₂.path) →
      finalFs env w₂.path = some w₂.bytes) := by
  refine ⟨?_, ?_, ?_⟩
  · intro hw
    exact (writes_mem_convert env src w hw).2
  · intro h
    rw [h]
  · intro hws hp hafter
    unfold finalFs
    rw [hws]
    have hsplit : ws₁ ++ w₁ :: (ws₂ ++ w₂ :: ws₃) =
        ((ws₁ ++ w₁ :: ws₂) ++ [w₂]) ++ ws₃ := by
      simp
    rw [hsplit, applyWrites_append, applyWrites_no_touch _ ws₃ _ hafter,
      applyWrites_append]
    simp [applyWrites]

/-- Witness for C6: `a.png` and `a.jpg` both write `after/a.webp`; the
final contents are the second file's bytes. -/
theorem C6_collision_witness :
    (main collideEnv).writes =
      [⟨"after/a.jpg", [33]⟩] ++ (⟨"after/a.webp", [11]⟩ : WriteEvent) ::
        ([] ++ (⟨"after/a.webp", [22]⟩ : WriteEvent) :: [])
  ∧ finalFs collideEnv "after/a.webp" = some [22] :=
  ⟨by decide,
   (C6_output_path_join_and_overwrite collideEnv "" "" "" "" ⟨"", []⟩
      ⟨"after/a.webp", [11]⟩ ⟨"after/a.webp", [22]⟩ [⟨"after/a.jpg", [33]⟩] [] []).2.2
     (by decide) (by decide) (by decide)⟩

theorem task_noKey (env : Env) (src outP : String) (pl : EncodePlan)
    (hkey : truthyKey env.apiKey = false)
    (henc : exceptIsOk (encodeFor env src pl) = true) :
    runDerivativeTask env src outP pl = .error .noApiKey := by
  unfold runDerivativeTask
  cases he : encodeFor env src pl with
  | error m => rw [he] at henc; cases henc
  | ok buf => simp [writeCompressedFile, tinifyCompressBuffer, hkey]

theorem taskErrors_all_error (ts : List (String × Except JsError (String × WriteEvent)))
    (h : ∀ t ∈ ts, t.2 = .error JsError.noApiKey) :
    taskErrors ts = ts.map (fun _ => JsError.noApiKey) := by
  induction ts with
  | nil => rfl
  | cons t ts ih =>
    have ht := h t (List.mem_cons_self _ _)
    simp only [taskErrors, List.filterMap_cons, ht, List.map_cons]
    rw [← taskErrors]
    rw [ih (fun u hu => h u (List.mem_cons_of_mem _ hu))]

theorem convert_noKey (env : Env) (src : String)
    (hkey : truthyKey env.apiKey = false)
    (henc : ∀ pl, exceptIsOk (encodeFor env src pl) = true)
    (hplan : planFor src ≠ []) :
    ∃ errs, (convertAndCompressOne env src).1 = .error errs ∧ errs ≠ [] ∧
      ∀ e ∈ errs, e = JsError.noApiKey := by
  have htasks : ∀ t ∈ plannedTasks env src, t.2 = .error JsError.noApiKey := by
    intro t ht
    unfold plannedTasks at ht
    rcases List.mem_map.mp ht with ⟨d, hd, rfl⟩
    exact task_noKey env src _ d.2 hkey (henc d.2)
  have herr := taskErrors_all_error (plannedTasks env src) htasks
  have hlen : taskErrors (plannedTasks env src) ≠ [] := by
    rw [herr]
    simp [plannedTasks, hplan]
  refine ⟨taskErrors (plannedTasks env src), ?_, hlen, ?_⟩
  · unfold convertAndCompressOne
    rw [if_neg hplan, if_neg hlen]
  · intro e he
    rw [herr] at he
    rcases List.mem_map.mp he with ⟨_, _, rfl⟩
    rfl

/-- C7: with no credential configured the configuration error surfaces
per compression attempt, not at startup: every enumerated file with a
nonempty derivative plan is recorded as failed with only
configuration-error reasons, and the run still completes with exit
code 0 (encoders are assumed to succeed, isolating the credential
scenario). -/
theorem C7_missing_credential_lazy (env : Env)
    (hkey : truthyKey env.apiKey = false)
    (hsetup : env.setupFails = false)
    (hne : (mainFiles env).isEmpty = false)
    (henc : ∀ src pl, exceptIsOk (encodeFor env src pl) = true) :
    (main env).exitCode = 0
  ∧ (∀ f ∈ mainFiles env, planFor f ≠ [] →
      ∃ errs, errs ≠ [] ∧ (∀ e ∈ errs, e = JsError.noApiKey) ∧
        LogLine.errLine f errs ∈ (main env).log) := by
  constructor
  · rw [main_exitCode, hsetup]
    rfl
  · intro f hf hplan
    obtain ⟨errs, hconv, hne2, hall⟩ := convert_noKey env f hkey (henc f) hplan
    refine ⟨errs, hne2, hall, ?_⟩
    rw [main_log_eq env hsetup hne]
    have hmem : LogLine.errLine f errs ∈ (processFiles env (mainFiles env)).log := by
      rw [processFiles_log]
      refine List.mem_map.mpr ⟨f, hf, ?_⟩
      unfold fileLog
      rw [hconv]
    simp [List.mem_append, hmem]

/-- Witness for C7 on a one-file batch with no credential. -/
theorem C7_missing_credential_witness :
    truthyKey noKeyEnv.apiKey = false
  ∧ (main noKeyEnv).exitCode = 0
  ∧ ∃ errs, errs ≠ [] ∧ (∀ e ∈ errs, e = JsError.noApiKey) ∧
      LogLine.errLine "before/a.png" errs ∈ (main noKeyEnv).log := by
  have h := C7_missing_credential_lazy noKeyEnv (by decide) (by decide) (by decide)
    (fun src pl => by cases pl <;> rfl)
  exact ⟨by decide, h.1, h.2 "before/a.png" (by decide) (by decide)⟩

theorem startTimeAfter_concat (env : Env) (sched : Sched) (t0 : Nat)
    (pre : List String) (f : String) :
    startTimeAfter env sched t0 (pre ++ [f]) =
      settleTime (startTimeAfter env sched t0 pre)
        (timedTasks env sched f (startTimeAfter env sched t0 pre)) := by
  induction pre generalizing t0 with
  | nil => rfl
  | cons g gs ih => simp [startTimeAfter, ih]

theorem foldl_max_init (l : List (String × Nat × Bool)) (t0 : Nat) :
    t0 ≤ l.foldl (fun m y => Nat.max m y.2.1) t0 := by
  induction l generalizing t0 with
  | nil => exact Nat.le_refl t0
  | cons a as ih =>
    exact Nat.le_trans (Nat.le_max_left _ _) (ih (Nat.max t0 a.2.1))

theorem le_foldl_max (l : List (String × Nat × Bool)) (t0 : Nat)
    (x : String × Nat × Bool) (hx : x ∈ l) :
    x.2.1 ≤ l.foldl (fun m y => Nat.max m y.2.1) t0 := by
  induction l generalizing t0 with
  | nil => cases hx
  | cons a as ih =>
    rcases List.mem_cons.mp hx with h | h
    · subst h
      exact Nat.le_trans (Nat.le_max_right t0 _) (foldl_max_init as _)
    · exact ih (Nat.max t0 a.2.1) h

/-- C8 is refuted as stated: in a run where the first file's jpg task
rejects at time 1 while its webp sibling keeps running until time 5,
the next file begins processing at the `Promise.all` rejection (time 1),
before all of the earlier file's derivative tasks have completed —
`Promise.all` rejects at the first rejection and neither waits for nor
cancels in-flight siblings. -/
theorem C8_counterexample :
    (timedTasks envReject schedReject "before/a.png" 0).any
      (fun x =>
        decide (startTimeAfter envReject schedReject 0 ["before/a.png"] < x.2.1)) =
      true := by
  decide

/-- C8 amended: the file after `f` starts exactly when `f`'s
`Promise.all` settles, and whenever all of `f`'s derivative tasks
fulfill, every one of them has completed no later than that start time;
only when some task of `f` rejects can a sibling still be running as the
next file begins. -/
theorem C8_amended_sequential (env : Env) (sched : Sched) (pre : List String)
    (f : String) (x : String × Nat × Bool)
    (hall : (timedTasks env sched f (startTimeAfter env sched 0 pre)).all
      (fun t => t.2.2) = true)
    (hx : x ∈ timedTasks env sched f (startTimeAfter env sched 0 pre)) :
    x.2.1 ≤ startTimeAfter env sched 0 (pre ++ [f]) := by
  rw [startTimeAfter_concat]
  have hfilter : (timedTasks env sched f (startTimeAfter env sched 0 pre)).filter
      (fun y => !y.2.2) = [] := by
    apply List.filter_eq_nil_iff.mpr
    intro a ha
    have := List.all_eq_true.mp hall a ha
    simp [this]
  simp only [settleTime, hfilter]
  exact le_foldl_max _ _ x hx

/-- Witness for the amended C8: a fully successful file whose tasks all
end by the time the next file would begin. -/
theorem C8_amended_witness :
    (timedTasks okEnv schedOk "before/a.png" (startTimeAfter okEnv schedOk 0 [])).all
      (fun t => t.2.2) = true
  ∧ ("after/a.jpg", 3, true) ∈
      timedTasks okEnv schedOk "before/a.png" (startTimeAfter okEnv schedOk 0 [])
  ∧ (("after/a.jpg", 3, true) : String × Nat × Bool).2.1 ≤
      startTimeAfter okEnv schedOk 0 ([] ++ ["before/a.png"]) :=
  ⟨by decide, by decide,
   C8_amended_sequential okEnv schedOk [] "before/a.png" ("after/a.jpg", 3, true)
     (by decide) (by decide)⟩

/-- C9: the enumerated file list is duplicate-free and contains exactly
the union of the three glob results — paths matched by more than one
pattern are deduplicated by full path, so each source path occurs at
most once in the processed list. -/
theorem C9_dedup_enumeration (env : Env) :
    (mainFiles env).Nodup
  ∧ (∀ x, x ∈ mainFiles env ↔ x ∈ env.globPng ++ env.globJpg ++ env.globJpeg)
  ∧ (∀ x, (mainFiles env).count x ≤ 1) := by
  refine ⟨jsSetDedup_nodup _, fun x => jsSetDedup_mem _ x, ?_⟩
  intro x
  exact List.nodup_iff_count_le_one.mp (jsSetDedup_nodup _) x

/-- C10: when enumeration yields no files, the run prints only the
no-target notice and returns — no per-file processing, no writes, no
summary line, exit code 0. -/
theorem C10_empty_enumeration (env : Env)
    (hsetup : env.setupFails = false)
    (hempty : mainFiles env = []) :
    (main env).exitCode = 0
  ∧ (main env).log = [LogLine.noTargets]
  ∧ (main env).writes = []
  ∧ summaryData (main env) = none := by
  have h : (mainFiles env).isEmpty = true := by rw [hempty]; rfl
  have hm : main env = ⟨0, [LogLine.noTargets], []⟩ := by
    simp [main, hsetup, h]
  rw [hm]
  exact ⟨rfl, rfl, rfl, rfl⟩

/-- Witness for C10 on an environment whose glob results are empty. -/
theorem C10_empty_witness :
    mainFiles emptyEnv = []
  ∧ (main emptyEnv).exitCode = 0
  ∧ (main emptyEnv).log = [LogLine.noTargets] :=
  ⟨by decide, (C10_empty_enumeration emptyEnv (by decide) (by decide)).1,
   (C10_empty_enumeration emptyEnv (by decide) (by decide)).2.1⟩

end MinifyImage
